import Mathlib

/-!
Verification of the DI-framework resolution engine (`src/container.ts`).

Shallow embedding notes:
* JS values that the container observes are modelled by `Value`.  An object
  produced by `new C(...args)` is `Value.obj k args` where `k` is a fresh
  allocation number drawn from `ContainerState.nextId`; two objects created by
  different `new` invocations have different `k`, which models JS reference
  identity.  The constructed object carries the argument list it was built
  with, which models the fact that the instance is a function of its
  constructor arguments.
* The metadata store (`metadataStore`, `defineMetadata`, `getMetadata`) is a
  process-wide map keyed by the class; in this embedding the metadata attached
  to a class (design:paramtypes, di:inject on the constructor and on the
  prototype, di:cron) is carried by the `ClassSpec` record itself, which is
  exactly the data `instantiate` reads through `getMetadata` for that class.
* `emit` appends the payload to an event log (`ContainerState.events`); this
  records the emit calls themselves.  Listener delivery (guarded by
  `listeners.size === 0`, isolated per listener) only invokes user callbacks
  and is not observed by any claim.
* Thrown `Error(message)` values are modelled as `Except.error message`; the
  state is threaded through failures (JS mutations persist when an exception
  propagates).
* JS `Set` iteration order is insertion order, so the resolution stack is a
  `List Token` with append for `add` and `List.erase` for `delete`.
* The interception wrappers installed by `applyTelemetry` / `applyEvents`
  replace instance methods; they are modelled as the wrapper combinators
  `telemetryWrap` / `publisherWrap` below (the registry-observable part of the
  construction pipeline is modelled in `instantiate`).
-/

/-- A JS value as observed by the container. -/
inductive Value where
  | undef : Value
  | null : Value
  | bool (b : Bool) : Value
  | num (n : Int) : Value
  | str (s : String) : Value
  | obj (id : Nat) (args : List Value) : Value

/-- JS truthiness for `Value` (`NaN` does not arise in this model). -/
def isTruthy : Value → Bool
  | Value.undef => false
  | Value.null => false
  | Value.bool b => b
  | Value.num n => n != 0
  | Value.str s => s != ""
  | Value.obj _ _ => true

/-- A service token: a class identity (live identity modelled by `id`, plus
its printable `name`) or a string.  Mirrors the key type of
`Container.services : Map<string | Constructor, ServiceDefinition>`. -/
inductive Token where
  | cls (id : Nat) (name : String) : Token
  | str (s : String) : Token
deriving DecidableEq

/-- A cron schedule attached to a method by `@Cron`: a millisecond interval or
a 5-field calendar expression. -/
inductive CronSpec where
  | interval (ms : Nat) : CronSpec
  | expr (e : String) : CronSpec

mutual
/-- A class together with the metadata `instantiate` consults for it:
`design:paramtypes` (with `none` standing for an absent entry or `Object`,
both of which fail the `paramType && paramType !== Object` test),
the parameter names parsed from the constructor source, the `di:inject`
metadata on the constructor and on the prototype, the method names of the
class, and the `di:cron` metadata. -/
inductive ClassSpec where
  | mk (id : Nat) (name : String)
      (paramTypes : List (Option ClassSpec))
      (paramNames : List String)
      (injectMeta : List (String × Ref))
      (protoInjectMeta : List (String × Ref))
      (methods : List String)
      (cronMethods : List (String × CronSpec)) : ClassSpec

/-- What `resolve` accepts: a class (constructor) or a string. -/
inductive Ref where
  | cls (c : ClassSpec) : Ref
  | str (s : String) : Ref
end

def ClassSpec.id : ClassSpec → Nat
  | ClassSpec.mk i _ _ _ _ _ _ _ => i

def ClassSpec.name : ClassSpec → String
  | ClassSpec.mk _ n _ _ _ _ _ _ => n

def ClassSpec.paramTypes : ClassSpec → List (Option ClassSpec)
  | ClassSpec.mk _ _ pt _ _ _ _ _ => pt

def ClassSpec.paramNames : ClassSpec → List String
  | ClassSpec.mk _ _ _ pn _ _ _ _ => pn

def ClassSpec.injectMeta : ClassSpec → List (String × Ref)
  | ClassSpec.mk _ _ _ _ im _ _ _ => im

def ClassSpec.protoInjectMeta : ClassSpec → List (String × Ref)
  | ClassSpec.mk _ _ _ _ _ pim _ _ => pim

def ClassSpec.methods : ClassSpec → List String
  | ClassSpec.mk _ _ _ _ _ _ m _ => m

def ClassSpec.cronMethods : ClassSpec → List (String × CronSpec)
  | ClassSpec.mk _ _ _ _ _ _ _ cm => cm

/-- The map key a `Ref` addresses (`typeof serviceClass === 'string' ?
serviceClass : serviceClass`). -/
def tokenOf : Ref → Token
  | Ref.cls c => Token.cls c.id c.name
  | Ref.str s => Token.str s

/-- `keyStr` in `resolve`: the string form of a token used in messages
(`typeof serviceClass === 'string' ? serviceClass : serviceClass.name`). -/
def refName : Ref → String
  | Ref.cls c => c.name
  | Ref.str s => s

/-- JS `String(token)` as used by `Array.from(stack).join(' -> ')`: a string
token prints as itself; a class prints its source text, which begins with
`class <name>`.  The claims proved below only join string tokens. -/
def tokenDisplay : Token → String
  | Token.cls _ name => "class " ++ name
  | Token.str s => s

/-- The producer stored in a service definition: the class itself (for
`register`) or a factory closure (for `registerFactory`).  A factory closure
may allocate, so it is modelled as a function of the fresh-allocation
counter. -/
inductive Producer where
  | ctor (c : ClassSpec) : Producer
  | factory (f : Nat → Value) : Producer

/-- `ServiceDefinition = { type, singleton, instance? }`. -/
structure ServiceDefinition where
  type : Producer
  singleton : Bool
  instance? : Option Value

/-- A lifecycle event payload as passed to `emit`. -/
inductive CEvent where
  | registered (key : Token) (singleton : Bool) (kind : String) : CEvent
  | resolved (key : Token) (inst : Value) (singleton : Bool) (fromCache : Bool) : CEvent
  | constructed (key : Token) (inst : Value) (overrides : List (Nat × Value)) : CEvent
  | cleared (count : Nat) : CEvent

/-- The container's mutable state: the service map (association list with
JS-`Map` update semantics), the resolution stack, the fresh-allocation
counter, the log of emitted events, the tracked cron-job handles
(`cronJobs`), the ledger of job handles whose `stop` has been invoked, and
the current clock in milliseconds (`Date.now()` at schedule-arming time). -/
structure ContainerState where
  services : List (Token × ServiceDefinition)
  resolutionStack : List Token
  nextId : Nat
  events : List CEvent
  cronJobs : List Nat
  stoppedJobs : List Nat
  now : Nat

/-- `Map.get`. -/
def svcGet : List (Token × ServiceDefinition) → Token → Option ServiceDefinition
  | [], _ => none
  | (k, v) :: rest, t => if k = t then some v else svcGet rest t

/-- `Map.set`: overwrite in place, else append (insertion order kept). -/
def svcSet : List (Token × ServiceDefinition) → Token → ServiceDefinition →
    List (Token × ServiceDefinition)
  | [], t, d => [(t, d)]
  | (k, v) :: rest, t, d => if k = t then (k, d) :: rest else (k, v) :: svcSet rest t d

/-- Generic association-list lookup for override maps keyed by position. -/
def lookupNat : List (Nat × Value) → Nat → Option Value
  | [], _ => none
  | (k, v) :: rest, n => if k = n then some v else lookupNat rest n

/-- Association-list lookup for string-keyed metadata objects. -/
def lookupStr {α : Type} : List (String × α) → String → Option α
  | [], _ => none
  | (k, v) :: rest, n => if k = n then some v else lookupStr rest n

/-- Append an event to the log (an `emit` call). -/
def emitEv (s : ContainerState) (e : CEvent) : ContainerState :=
  { s with events := s.events ++ [e] }

/-- `resolutionStack.delete(key)` (a JS `Set` holds at most one copy). -/
def popStack (key : Token) (s : ContainerState) : ContainerState :=
  { s with resolutionStack := s.resolutionStack.erase key }

/-- The cached value served by the `definition.singleton &&
definition.instance` test: the instance, when present and truthy, of a
singleton definition. -/
def cachedVal (d : ServiceDefinition) : Option Value :=
  match d.instance? with
  | some v => if d.singleton && isTruthy v then some v else none
  | none => none

/-- `Array.from(resolutionStack).join(' -> ')`. -/
def joinArrow (stack : List Token) : String :=
  String.intercalate " -> " (stack.map tokenDisplay)

/-- The circular-dependency message of `resolve` (`verb` is `resolving`) and
`construct` (`verb` is `constructing`). -/
def circularMsg (verb : String) (stack : List Token) (keyStr : String) : String :=
  "Circular dependency detected while " ++ verb ++ " " ++ keyStr ++
    ". Stack: " ++ joinArrow stack ++ " -> " ++ keyStr

/-- The `ServiceNotFound` message of `resolve`. -/
def notRegisteredMsg (keyStr : String) : String :=
  "Service '" ++ keyStr ++ "' is not registered in the DI container"

/-- `Container.register`: stores one fresh definition under the printable
name and another fresh definition under the class identity, then emits
`registered {key: class, singleton, kind: 'class'}`.  The `singleton?` option
defaults to `true` (`options.singleton ?? true`). -/
def register (c : ClassSpec) (singletonOpt : Option Bool) (s : ContainerState) :
    ContainerState :=
  let sing := singletonOpt.getD true
  let defByName : ServiceDefinition :=
    { type := Producer.ctor c, singleton := sing, instance? := none }
  let defByClass : ServiceDefinition :=
    { type := Producer.ctor c, singleton := sing, instance? := none }
  let m1 := svcSet s.services (Token.str c.name) defByName
  let m2 := svcSet m1 (Token.cls c.id c.name) defByClass
  let s1 := { s with services := m2 }
  emitEv s1 (CEvent.registered (Token.cls c.id c.name) sing "class")

/-- `Container.registerFactory`. -/
def registerFactory (name : String) (f : Nat → Value) (singletonOpt : Option Bool)
    (s : ContainerState) : ContainerState :=
  let sing := singletonOpt.getD true
  let d : ServiceDefinition :=
    { type := Producer.factory f, singleton := sing, instance? := none }
  let s1 := { s with services := svcSet s.services (Token.str name) d }
  emitEv s1 (CEvent.registered (Token.str name) sing "factory")

/-- `Container.has`. -/
def hasSvc (s : ContainerState) (r : Ref) : Bool :=
  (svcGet s.services (tokenOf r)).isSome

/-- `Container.getServiceNames`: the string keys, deduplicated through a
`Set` in insertion order. -/
def getServiceNames (s : ContainerState) : List String :=
  (s.services.map Prod.fst).foldl
    (fun acc k =>
      match k with
      | Token.str n => if acc.contains n then acc else acc ++ [n]
      | Token.cls _ _ => acc)
    []

/-- `Container.stopCronJobs`: invoke every tracked stop handle (recorded in
the `stoppedJobs` ledger) and drop the tracked list. -/
def stopCronJobs (s : ContainerState) : ContainerState :=
  { s with stoppedJobs := s.stoppedJobs ++ s.cronJobs, cronJobs := [] }

/-- `Container.clear`: count the entries, stop all cron jobs, drop every
definition, emit `cleared {count}`. -/
def clear (s : ContainerState) : ContainerState :=
  let count := s.services.length
  let s1 := stopCronJobs s
  let s2 := { s1 with services := [] }
  emitEv s2 (CEvent.cleared count)

/-! ### The calendar model behind `Date`

`getNextCronTime` reads a candidate `Date` through `getMinutes`, `getHours`,
`getDate`, `getMonth() + 1` and `getDay`.  A candidate is a whole minute; we
count minutes since the Unix epoch (1970-01-01 00:00, a Thursday) and compute
the civil calendar components with the Gregorian rules, which is what `Date`
does (the host timezone is modelled as UTC). -/

def isLeapYear (y : Nat) : Bool :=
  (y % 4 == 0 && y % 100 != 0) || y % 400 == 0

def daysInMonth (y m : Nat) : Nat :=
  if m = 2 then (if isLeapYear y then 29 else 28)
  else if m = 4 ∨ m = 6 ∨ m = 9 ∨ m = 11 then 30
  else 31

def daysInYear (y : Nat) : Nat :=
  if isLeapYear y then 366 else 365

/-- Walk years forward from 1970 consuming whole years of days; returns the
year and the remaining day-of-year index.  Every step consumes at least 365
days, so `rem` itself bounds the iteration count; the first argument is that
structural bound (at bound 0 the remainder is 0, which the guarded branch
would return unchanged as well). -/
def yearLoopF : Nat → Nat → Nat → Nat × Nat
  | 0, y, rem => (y, rem)
  | fuel + 1, y, rem =>
    if rem < daysInYear y then (y, rem)
    else yearLoopF fuel (y + 1) (rem - daysInYear y)

/-- Walk months forward consuming whole months of days; returns the month
(1-based) and day of month (1-based).  Bounded structurally like
`yearLoopF` (every month has at least 28 days). -/
def monthLoopF : Nat → Nat → Nat → Nat → Nat × Nat
  | 0, _, m, rem => (m, rem + 1)
  | fuel + 1, y, m, rem =>
    if rem < daysInMonth y m then (m, rem + 1)
    else monthLoopF fuel y (m + 1) (rem - daysInMonth y m)

/-- Civil (year, month, day) of a day number counted from 1970-01-01. -/
def civilFromDay (d : Nat) : Nat × Nat × Nat :=
  let yr := yearLoopF d 1970 d
  let md := monthLoopF yr.2 yr.1 1 yr.2
  (yr.1, md.1, md.2)

/-- `getDate()` of the candidate minute `m` (day of month, 1-based). -/
def dateOfMinute (m : Nat) : Nat :=
  (civilFromDay (m / 1440)).2.2

/-- `getMonth() + 1` of the candidate minute `m` (month, 1-based). -/
def monthOfMinute (m : Nat) : Nat :=
  (civilFromDay (m / 1440)).2.1

/-! ### Cron parsing (`parseCronField`, `parseCronExpression`) -/

/-- Maximal run of decimal digits, as a number; `none` when the run is
empty (JS `parseInt` then yields `NaN`). -/
def parseDigits (cs : List Char) : Option Nat :=
  let ds := cs.takeWhile Char.isDigit
  if ds.isEmpty then none
  else some (ds.foldl (fun a c => a * 10 + (c.toNat - 48)) 0)

/-- `parseInt(s, 10)`: skip leading whitespace, optional sign, maximal digit
prefix; `none` models `NaN`. -/
def jsParseInt (cs : List Char) : Option Int :=
  let cs := cs.dropWhile Char.isWhitespace
  match cs with
  | '-' :: rest => (parseDigits rest).map (fun n => -(n : Int))
  | '+' :: rest => (parseDigits rest).map (fun n => (n : Int))
  | _ => (parseDigits cs).map (fun n => (n : Int))

/-- `String.prototype.trim` on a character list. -/
def trimWs (cs : List Char) : List Char :=
  ((cs.dropWhile Char.isWhitespace).reverse.dropWhile Char.isWhitespace).reverse

/-- `split(sep)` of JS strings: `"a-b-c" → ["a","b","c"]`, `"" → [""]`. -/
def splitOnChar (sep : Char) : List Char → List (List Char)
  | [] => [[]]
  | c :: rest =>
    let r := splitOnChar sep rest
    if c = sep then [] :: r
    else
      match r with
      | h :: t => (c :: h) :: t
      | [] => [[c]]

/-- `[min, min+1, …, max]` (empty when `min > max`), as `Int`s. -/
def natRangeIncl (lo hi : Nat) : List Int :=
  (List.range (hi + 1 - lo)).map (fun k => Int.ofNat (lo + k))

/-- `[lo, …, hi]` over `Int` (empty when `lo > hi`). -/
def intRangeIncl (lo hi : Int) : List Int :=
  (List.range (hi + 1 - lo).toNat).map (fun k => lo + k)

/-- `parseCronField`: `*` (any), `*/N` (step), comma list, `A-B` range,
exact value.  Entries that JS parses to `NaN` can never equal a candidate
component, so they are dropped ( `[NaN]`, a `NaN` range bound and a `NaN` or
zero step all yield an empty match set, as in JS where `i % 0` and
`i % NaN` are `NaN`); for a candidate `i ≥ 0` and a step `s ≠ 0`, JS
`i % s === 0` is `i % |s| = 0`. -/
def parseCronField (field : String) (lo hi : Nat) : List Int :=
  let cs := field.data
  if cs = ['*'] then natRangeIncl lo hi
  else if cs.take 2 = ['*', '/'] then
    match jsParseInt (cs.drop 2) with
    | none => []
    | some st =>
      if st = 0 then []
      else (natRangeIncl lo hi).filter (fun i => i % (st.natAbs : Int) = 0)
  else if cs.contains ',' then
    (splitOnChar ',' cs).filterMap (fun part => jsParseInt (trimWs part))
  else if cs.contains '-' then
    match splitOnChar '-' cs with
    | a :: b :: _ =>
      match jsParseInt (trimWs a), jsParseInt (trimWs b) with
      | some l, some h => intRangeIncl l h
      | _, _ => []
    | _ => []
  else
    match jsParseInt cs with
    | some n => [n]
    | none => []

/-- The parsed five fields. -/
structure CronFields where
  minute : List Int
  hour : List Int
  dayOfMonth : List Int
  month : List Int
  dayOfWeek : List Int

/-- `expr.trim().split(/\s+/)`: the maximal whitespace-free words. -/
def wordsAux : List Char → List Char → List (List Char)
  | [], acc => if acc.isEmpty then [] else [acc.reverse]
  | c :: rest, acc =>
    if c.isWhitespace then
      if acc.isEmpty then wordsAux rest []
      else acc.reverse :: wordsAux rest []
    else wordsAux rest (c :: acc)

def wordsOf (cs : List Char) : List (List Char) :=
  wordsAux cs []

/-- `parseCronExpression`. -/
def parseCronExpression (expr : String) : Except String CronFields :=
  match wordsOf expr.data with
  | [p1, p2, p3, p4, p5] =>
    Except.ok
      { minute := parseCronField (String.mk p1) 0 59
        hour := parseCronField (String.mk p2) 0 23
        dayOfMonth := parseCronField (String.mk p3) 1 31
        month := parseCronField (String.mk p4) 1 12
        dayOfWeek := parseCronField (String.mk p5) 0 6 }
  | _ =>
    Except.error ("Invalid cron expression \"" ++ expr ++
      "\": expected 5 fields (minute hour dayOfMonth month dayOfWeek)")

/-- Do all five fields match candidate minute `m`?  (The conjunction tested
inside the search loop of `getNextCronTime`.) -/
def cronMatches (f : CronFields) (m : Nat) : Bool :=
  f.minute.contains (Int.ofNat (m % 60)) &&
  f.hour.contains (Int.ofNat (m / 60 % 24)) &&
  f.dayOfMonth.contains (Int.ofNat (dateOfMinute m)) &&
  f.month.contains (Int.ofNat (monthOfMinute m)) &&
  f.dayOfWeek.contains (Int.ofNat ((m / 1440 + 4) % 7))

/-- The minute-by-minute search loop: `k` candidates left, current candidate
minute `m`. -/
def cronScan (f : CronFields) : Nat → Nat → Except String Nat
  | 0, _ => Except.error "No matching cron time found for expression within 2 years"
  | k + 1, m => if cronMatches f m then Except.ok m else cronScan f k (m + 1)

/-- `1_051_920` (≈ 2 years of minutes). -/
def cronSearchBound : Nat := 1051920

/-- `getNextCronTime(fields, from)`: truncate `from` up to the next whole
minute, then scan forward; the result is the matching instant in
milliseconds (`Date.getTime()` of the returned date). -/
def getNextCronTime (f : CronFields) (fromMs : Nat) : Except String Nat :=
  (cronScan f cronSearchBound (fromMs / 60000 + 1)).map (fun m => m * 60000)

/-! ### The construction pipeline -/

/-- JS truthiness of an injection target (`if (paramInjectTarget)`,
`&& targetType`): a class is truthy, a string is truthy when nonempty. -/
def refTruthy : Ref → Bool
  | Ref.cls _ => true
  | Ref.str s => s != ""

/-- `{ ...injectProperties, ...protoInjectProperties }`: the first object's
keys in order (value overridden by the second), then the second object's new
keys. -/
def mergeProps (a b : List (String × Ref)) : List (String × Ref) :=
  a.map (fun kv => (kv.1, (lookupStr b kv.1).getD kv.2)) ++
    b.filter (fun kv => (lookupStr a kv.1).isNone)

/-- `applyCron`, walking `Object.entries(cronMethods)`: skip entries whose
method is not a function on the instance; an interval arms a timer and
tracks its stop handle; a calendar expression is parsed (throwing on a
malformed one), its job handle is pushed, and then `scheduleNext` computes
the first firing via `getNextCronTime` (throwing when no minute in the bound
matches — the handle stays tracked, as in the source where `push` precedes
`scheduleNext()`).  Job handles are drawn from the fresh-id supply. -/
def applyCronList (c : ClassSpec) : List (String × CronSpec) → ContainerState →
    Except String Unit × ContainerState
  | [], s => (Except.ok (), s)
  | (m, spec) :: rest, s =>
    if c.methods.contains m then
      match spec with
      | CronSpec.interval _ms =>
        applyCronList c rest
          { s with cronJobs := s.cronJobs ++ [s.nextId], nextId := s.nextId + 1 }
      | CronSpec.expr e =>
        match parseCronExpression e with
        | Except.error msg => (Except.error msg, s)
        | Except.ok fields =>
          let s1 := { s with cronJobs := s.cronJobs ++ [s.nextId], nextId := s.nextId + 1 }
          match getNextCronTime fields s1.now with
          | Except.error msg => (Except.error msg, s1)
          | Except.ok _ => applyCronList c rest s1
    else applyCronList c rest s

def applyCron (c : ClassSpec) (s : ContainerState) : Except String Unit × ContainerState :=
  applyCronList c c.cronMethods s

mutual
/-- `Container.resolve`: cycle check against the resolution stack, definition
lookup, cached-singleton fast path, otherwise push the token, instantiate,
cache a singleton instance, emit `resolved`, and pop the token on every exit
path (the `finally`).  The fuel argument only bounds recursion depth; the
stack's cycle check makes exhaustion unreachable for adequate fuel. -/
def resolve : Nat → Ref → ContainerState → Except String Value × ContainerState
  | 0, _, s => (Except.error "resolution fuel exhausted", s)
  | fuel + 1, r, s =>
    let key := tokenOf r
    let keyStr := refName r
    if key ∈ s.resolutionStack then
      (Except.error (circularMsg "resolving" s.resolutionStack keyStr), s)
    else
      match svcGet s.services key with
      | none => (Except.error (notRegisteredMsg keyStr), s)
      | some d =>
        match cachedVal d with
        | some v => (Except.ok v, emitEv s (CEvent.resolved key v true true))
        | none =>
          let s1 := { s with resolutionStack := s.resolutionStack ++ [key] }
          match instantiate fuel d.type [] s1 with
          | (Except.error e, s2) => (Except.error e, popStack key s2)
          | (Except.ok v, s2) =>
            let s3 :=
              if d.singleton then
                { s2 with services := svcSet s2.services key { d with instance? := some v } }
              else s2
            -- `wasCached = definition.singleton && !!definition.instance` is
            -- false on this branch (the fast path above took the true case).
            let s4 := emitEv s3 (CEvent.resolved key v d.singleton false)
            (Except.ok v, popStack key s4)

/-- `Container.instantiate`: a factory producer is called with no arguments
(it may allocate, hence the fresh-id supply); a class producer gets its
dependency list built, is constructed (`new`), then telemetry/publisher
wrapping is applied (modelled by `telemetryWrap`/`publisherWrap` below — no
registry-observable effect), cron schedules are armed, and property-level
injections are resolved with per-property error isolation. -/
def instantiate : Nat → Producer → List (Nat × Value) → ContainerState →
    Except String Value × ContainerState
  | _, Producer.factory f, _, s =>
    (Except.ok (f s.nextId), { s with nextId := s.nextId + 1 })
  | 0, Producer.ctor _, _, s => (Except.error "resolution fuel exhausted", s)
  | fuel + 1, Producer.ctor c, overrides, s =>
    let paramCount := Nat.max c.paramTypes.length c.paramNames.length
    match buildDeps fuel c overrides (List.range paramCount) s with
    | (Except.error e, s1) => (Except.error e, s1)
    | (Except.ok deps, s1) =>
      let inst := Value.obj s1.nextId deps
      let s2 := { s1 with nextId := s1.nextId + 1 }
      match applyCron c s2 with
      | (Except.error e, s3) => (Except.error e, s3)
      | (Except.ok _, s3) =>
        let s4 := propsLoop fuel (mergeProps c.injectMeta c.protoInjectMeta) s3
        (Except.ok inst, s4)

/-- The dependency-assembly loop of `instantiate` over parameter positions:
an own `overrides` entry is pushed as-is; else a truthy `param_i` injection
target is resolved; else a known parameter type is resolved by class identity
or by printable name, failing with the cannot-resolve message when neither is
registered; else nothing is pushed (the position is skipped, so later pushes
land one slot earlier). -/
def buildDeps : Nat → ClassSpec → List (Nat × Value) → List Nat → ContainerState →
    Except String (List Value) × ContainerState
  | _, _, _, [], s => (Except.ok [], s)
  | 0, _, _, _ :: _, s => (Except.error "resolution fuel exhausted", s)
  | fuel + 1, c, overrides, i :: rest, s =>
    let step : Except String (Option Value) × ContainerState :=
      match lookupNat overrides i with
      | some v => (Except.ok (some v), s)
      | none =>
        let target :=
          match lookupStr c.injectMeta ("param_" ++ toString i) with
          | some ref => if refTruthy ref then some ref else none
          | none => none
        match target with
        | some ref =>
          match resolve fuel ref s with
          | (Except.error e, s1) => (Except.error e, s1)
          | (Except.ok v, s1) => (Except.ok (some v), s1)
        | none =>
          match c.paramTypes.getD i none with
          | some pc =>
            if (svcGet s.services (Token.cls pc.id pc.name)).isSome then
              match resolve fuel (Ref.cls pc) s with
              | (Except.error e, s1) => (Except.error e, s1)
              | (Except.ok v, s1) => (Except.ok (some v), s1)
            else if (svcGet s.services (Token.str pc.name)).isSome then
              match resolve fuel (Ref.str pc.name) s with
              | (Except.error e, s1) => (Except.error e, s1)
              | (Except.ok v, s1) => (Except.ok (some v), s1)
            else
              (Except.error ("Cannot resolve dependency of type " ++ pc.name ++
                " for parameter '" ++ c.paramNames.getD i "undefined" ++
                "' in " ++ c.name), s)
          | none => (Except.ok none, s)
    match step with
    | (Except.error e, s1) => (Except.error e, s1)
    | (Except.ok od, s1) =>
      match buildDeps fuel c overrides rest s1 with
      | (Except.error e, s2) => (Except.error e, s2)
      | (Except.ok ds, s2) =>
        (Except.ok
          (match od with
           | some dv => dv :: ds
           | none => ds), s2)

/-- The property-injection loop of `instantiate` over the merged metadata:
keys starting with `param_` and falsy targets are skipped; a resolution
failure is caught per property (`console.warn`) and the walk continues; the
assignment to the instance property is not observable on the object model
(the object is its identity plus constructor arguments). -/
def propsLoop : Nat → List (String × Ref) → ContainerState → ContainerState
  | _, [], s => s
  | 0, _ :: _, s => s
  | fuel + 1, (p, ref) :: rest, s =>
    if !p.startsWith "param_" && refTruthy ref then
      match resolve fuel ref s with
      | (Except.ok _, s1) => propsLoop fuel rest s1
      | (Except.error _, s1) => propsLoop fuel rest s1
    else propsLoop fuel rest s
end

/-- `Container.construct`: cycle check, push the class token, instantiate it
directly from the supplied class (no definition lookup and no cache read or
write), emit `constructed`, pop the token. -/
def construct (fuel : Nat) (c : ClassSpec) (overrides : List (Nat × Value))
    (s : ContainerState) : Except String Value × ContainerState :=
  let key := Token.cls c.id c.name
  let keyStr := c.name
  if key ∈ s.resolutionStack then
    (Except.error (circularMsg "constructing" s.resolutionStack keyStr), s)
  else
    let s1 := { s with resolutionStack := s.resolutionStack ++ [key] }
    match instantiate fuel (Producer.ctor c) overrides s1 with
    | (Except.error e, s2) => (Except.error e, popStack key s2)
    | (Except.ok v, s2) =>
      let s3 := emitEv s2 (CEvent.constructed key v overrides)
      (Except.ok v, popStack key s3)

/-! ### The interception wrappers (`applyTelemetry`, `applyEvents`)

A method replaced in place is modelled as a combinator from the original
callable to the wrapped one.  Synchronous outcomes are `Except Value Value`
(`.ok` = return, `.error` = throw); the deferred (`Promise`) branch mirrors
the synchronous one via `.then`/`.catch` and is outside this model.  The
wrapped call returns the outcome together with the list of event emissions
(event payloads in emission order).  `startTime`/`endTime` stand for the
`Date.now()` readings; `logging` only prints a console line and changes
neither the outcome nor the emissions. -/

abbrev MRes := Except Value Value

/-- The payload emitted by both wrappers; `result`/`error` hold
`Value.undef` when absent. -/
structure MethodEventPayload where
  className : String
  methodName : String
  args : List Value
  startTime : Nat
  endTime : Nat
  result : Value
  error : Value

inductive PublishPhase where
  | before : PublishPhase
  | after : PublishPhase
  | both : PublishPhase
deriving DecidableEq

/-- The wrapper installed by `applyTelemetry` on a `@Telemetry` method:
invoke the original; on return, emit one `telemetry` payload carrying the
result; on throw, emit one payload carrying the error and re-throw the same
value. -/
def telemetryWrap (className methodName : String) (_logging : Bool)
    (orig : List Value → MRes) (startTime endTime : Nat) (args : List Value) :
    MRes × List MethodEventPayload :=
  let mkPayload := fun (result error : Value) =>
    { className := className, methodName := methodName, args := args,
      startTime := startTime, endTime := endTime, result := result,
      error := error : MethodEventPayload }
  match orig args with
  | Except.ok v => (Except.ok v, [mkPayload v Value.undef])
  | Except.error e => (Except.error e, [mkPayload Value.undef e])

/-- The wrapper installed by `applyEvents` on a `@Publisher` method: with
phase `before`/`both`, emit the named event before invoking the original
(`result` still undefined); invoke the original; on return emit the event
again for phase `after`/`both` with the result; on throw the catch block
emits (whatever the phase) with the error set, and re-throws the same
value. -/
def publisherWrap (className methodName eventName : String) (phase : PublishPhase)
    (_logging : Bool) (orig : List Value → MRes) (startTime endTime : Nat)
    (args : List Value) : MRes × List (String × MethodEventPayload) :=
  let mkE := fun (result error : Value) =>
    (eventName,
      { className := className, methodName := methodName, args := args,
        startTime := startTime, endTime := endTime, result := result,
        error := error : MethodEventPayload })
  let pre :=
    if phase = PublishPhase.before ∨ phase = PublishPhase.both then
      [mkE Value.undef Value.undef]
    else []
  match orig args with
  | Except.ok v =>
    let post :=
      if phase = PublishPhase.after ∨ phase = PublishPhase.both then
        [mkE v Value.undef]
      else []
    (Except.ok v, pre ++ post)
  | Except.error e => (Except.error e, pre ++ [mkE Value.undef e])

/-- The facts every resolver-pipeline call preserves from entry state `s` to
exit state `s1`: the fresh-id counter never decreases; the resolution stack
is restored (`finally`); the definition of any token on the entry stack is
untouched (resolving such a token errors out before any mutation); and no
map key is created or deleted (only `register*` and `clear` do that). -/
def StInv (s s1 : ContainerState) : Prop :=
  s.nextId ≤ s1.nextId ∧
  s1.resolutionStack = s.resolutionStack ∧
  (∀ t, t ∈ s.resolutionStack → svcGet s1.services t = svcGet s.services t) ∧
  (∀ t, (svcGet s1.services t).isSome = (svcGet s.services t).isSome)

theorem StInv_refl (s : ContainerState) : StInv s s :=
  ⟨Nat.le_refl _, rfl, fun _ _ => rfl, fun _ => rfl⟩

theorem StInv_trans {s1 s2 s3 : ContainerState} (h1 : StInv s1 s2) (h2 : StInv s2 s3) :
    StInv s1 s3 := by
  obtain ⟨a1, b1, c1, d1⟩ := h1
  obtain ⟨a2, b2, c2, d2⟩ := h2
  refine ⟨Nat.le_trans a1 a2, b2.trans b1, ?_, ?_⟩
  · intro t ht
    have ht2 : t ∈ s2.resolutionStack := by rw [b1]; exact ht
    exact (c2 t ht2).trans (c1 t ht)
  · intro t
    exact (d2 t).trans (d1 t)

theorem svcGet_svcSet_self (m : List (Token × ServiceDefinition)) (k : Token)
    (d : ServiceDefinition) : svcGet (svcSet m k d) k = some d := by
  induction m with
  | nil => simp [svcSet, svcGet]
  | cons kv rest ih =>
    by_cases h : kv.1 = k
    · simp [svcSet, svcGet, h]
    · simp [svcSet, svcGet, h, ih]

theorem svcGet_svcSet_ne (m : List (Token × ServiceDefinition)) (k t : Token)
    (d : ServiceDefinition) (h : k ≠ t) : svcGet (svcSet m k d) t = svcGet m t := by
  induction m with
  | nil => simp [svcSet, svcGet, h]
  | cons kv rest ih =>
    by_cases hk : kv.1 = k
    · simp [svcSet, svcGet, hk, h]
    · simp only [svcSet, svcGet, if_neg hk]
      by_cases ht : kv.1 = t
      · simp [svcGet, ht]
      · simp [svcGet, ht, ih]

theorem svcGet_svcSet_isSome (m : List (Token × ServiceDefinition)) (k t : Token)
    (d : ServiceDefinition) (h : (svcGet m k).isSome) :
    (svcGet (svcSet m k d) t).isSome = (svcGet m t).isSome := by
  by_cases hk : k = t
  · subst hk
    rw [svcGet_svcSet_self]
    exact (Option.isSome_some).symm ▸ h.symm ▸ rfl
  · rw [svcGet_svcSet_ne m k t d hk]

/-! ### Concrete fixtures used by witnesses and counterexamples -/

/-- A freshly created container (`new Container()`). -/
def emptySt : ContainerState :=
  { services := [], resolutionStack := [], nextId := 0, events := [],
    cronJobs := [], stoppedJobs := [], now := 0 }

/-- `class C {}` — a dependency-free class. -/
def witClassC : ClassSpec := ClassSpec.mk 0 "C" [] [] [] [] [] []

/-- A second dependency-free class, used where a transient registration is
exercised. -/
def witClassCT : ClassSpec := ClassSpec.mk 1 "CT" [] [] [] [] [] []

/-- `class T { constructor(a, b) {} }` with no decorator metadata: two
parameter names parsed from the source, no parameter types, no injection
metadata. -/
def witClassT : ClassSpec := ClassSpec.mk 2 "T" [] ["a", "b"] [] [] [] []

/-- `class U {}` — never registered; used against `construct`. -/
def witClassU : ClassSpec := ClassSpec.mk 3 "U" [] [] [] [] [] []

/-- `class G { constructor(@Component(C) dep, name) }`: position 0 carries an
injection target, position 1 is a plain parameter. -/
def witClassG : ClassSpec :=
  ClassSpec.mk 6 "G" [] ["dep", "name"] [("param_0", Ref.cls witClassC)] [] [] []

/-- `class A { constructor(b) }` whose parameter 0 carries
`@Component("B")`. -/
def witClassA : ClassSpec :=
  ClassSpec.mk 4 "A" [] ["b"] [("param_0", Ref.str "B")] [] [] []

/-- `class B { constructor(a) }` whose parameter 0 carries
`@Component("A")`. -/
def witClassB : ClassSpec :=
  ClassSpec.mk 5 "B" [] ["a"] [("param_0", Ref.str "A")] [] [] []

/-- Does constructor position `i` receive a pushed value in the
dependency-assembly loop (an own override, a truthy `param_i` injection
target, or a known parameter type)?  When false, the loop pushes nothing for
the position and later arguments shift one slot to the left. -/
def positionFilled (c : ClassSpec) (ov : List (Nat × Value)) (i : Nat) : Bool :=
  (lookupNat ov i).isSome ||
  (match lookupStr c.injectMeta ("param_" ++ toString i) with
   | some ref => refTruthy ref
   | none => false) ||
  (c.paramTypes.getD i none).isSome

theorem applyCronList_state (c : ClassSpec) (l : List (String × CronSpec)) (s : ContainerState) :
    s.nextId ≤ (applyCronList c l s).2.nextId ∧
    (applyCronList c l s).2.services = s.services ∧
    (applyCronList c l s).2.resolutionStack = s.resolutionStack := by
  induction l generalizing s with
  | nil => simp [applyCronList]
  | cons kv rest ih =>
    obtain ⟨m, spec⟩ := kv
    simp only [applyCronList]
    rcases hm : c.methods.contains m with _ | _
    · simp only [hm, Bool.false_eq_true, if_false]
      exact ih s
    · simp only [hm, if_true]
      cases spec with
      | interval ms =>
        have h := ih { s with cronJobs := s.cronJobs ++ [s.nextId], nextId := s.nextId + 1 }
        exact ⟨Nat.le_of_succ_le h.1, h.2.1, h.2.2⟩
      | expr e =>
        rcases hp : parseCronExpression e with msg | fields
        · simp [hp]
        · simp only [hp]
          rcases hg : getNextCronTime fields s.now with msg2 | ms2
          · simp [hg]
          · simp only [hg]
            have h := ih { s with cronJobs := s.cronJobs ++ [s.nextId], nextId := s.nextId + 1 }
            exact ⟨Nat.le_of_succ_le h.1, h.2.1, h.2.2⟩

theorem applyCron_inv (c : ClassSpec) (s : ContainerState) : StInv s (applyCron c s).2 := by
  have h := applyCronList_state c c.cronMethods s
  simp only [applyCron]
  exact ⟨h.1, h.2.2, fun t _ => by rw [h.2.1], fun t => by rw [h.2.1]⟩

theorem StInv_bumpId (s : ContainerState) : StInv s { s with nextId := s.nextId + 1 } :=
  ⟨Nat.le_succ _, rfl, fun _ _ => rfl, fun _ => rfl⟩

theorem StInv_emit (s : ContainerState) (e : CEvent) : StInv s (emitEv s e) :=
  ⟨Nat.le_refl _, rfl, fun _ _ => rfl, fun _ => rfl⟩

theorem pipelineInv : ∀ fuel : Nat,
    (∀ r s, StInv s (resolve fuel r s).2) ∧
    (∀ p ov s, StInv s (instantiate fuel p ov s).2) ∧
    (∀ c ov idx s, StInv s (buildDeps fuel c ov idx s).2) ∧
    (∀ props s, StInv s (propsLoop fuel props s)) := by
  intro fuel
  induction fuel with
  | zero =>
    refine ⟨fun r s => StInv_refl s, ?_, ?_, ?_⟩
    · intro p ov s
      cases p with
      | ctor c => exact StInv_refl s
      | factory f => exact StInv_bumpId s
    · intro c ov idx s
      cases idx with
      | nil => exact StInv_refl s
      | cons i rest => exact StInv_refl s
    · intro props s
      cases props with
      | nil => exact StInv_refl s
      | cons kv rest => exact StInv_refl s
  | succ fuel ih =>
    obtain ⟨ihR, ihI, ihB, ihP⟩ := ih
    refine ⟨?_, ?_, ?_, ?_⟩
    · -- resolve (fuel+1)
      intro r s
      simp only [resolve]
      by_cases hmem : tokenOf r ∈ s.resolutionStack
      · simp only [if_pos hmem]
        exact StInv_refl s
      · simp only [if_neg hmem]
        rcases hd : svcGet s.services (tokenOf r) with _ | d
        · simp only [hd]
          exact StInv_refl s
        · simp only [hd]
          rcases hc : cachedVal d with _ | v
          · simp only [hc]
            rcases hi : instantiate fuel d.type []
                { s with resolutionStack := s.resolutionStack ++ [tokenOf r] } with ⟨rv, s2⟩
            have inv2 : StInv { s with resolutionStack := s.resolutionStack ++ [tokenOf r] } s2 := by
              have h := ihI d.type [] { s with resolutionStack := s.resolutionStack ++ [tokenOf r] }
              rw [hi] at h
              exact h
            have hstack2 : s2.resolutionStack = s.resolutionStack ++ [tokenOf r] := inv2.2.1
            have herase : (s.resolutionStack ++ [tokenOf r]).erase (tokenOf r) = s.resolutionStack := by
              rw [List.erase_append_right _ hmem, List.erase_cons_head, List.append_nil]
            have hpres : ∀ t, t ∈ s.resolutionStack → svcGet s2.services t = svcGet s.services t := by
              intro t ht
              exact inv2.2.2.1 t (List.mem_append_left _ ht)
            have hsome : ∀ t, (svcGet s2.services t).isSome = (svcGet s.services t).isSome :=
              fun t => inv2.2.2.2 t
            cases rv with
            | error e =>
              simp only [hi]
              refine ⟨inv2.1, ?_, ?_, ?_⟩
              · show s2.resolutionStack.erase (tokenOf r) = s.resolutionStack
                rw [hstack2, herase]
              · intro t ht
                exact hpres t ht
              · exact hsome
            | ok v =>
              simp only [hi]
              by_cases hsing : d.singleton = true
              · rw [if_pos hsing]
                have hkeysome : (svcGet s2.services (tokenOf r)).isSome = true := by
                  rw [hsome, hd]
                  rfl
                refine ⟨inv2.1, ?_, ?_, ?_⟩
                · show s2.resolutionStack.erase (tokenOf r) = s.resolutionStack
                  rw [hstack2, herase]
                · intro t ht
                  have hne : tokenOf r ≠ t := fun he => hmem (he ▸ ht)
                  show svcGet (svcSet s2.services (tokenOf r) _) t = svcGet s.services t
                  rw [svcGet_svcSet_ne _ _ _ _ hne]
                  exact hpres t ht
                · intro t
                  show (svcGet (svcSet s2.services (tokenOf r) _) t).isSome = _
                  rw [svcGet_svcSet_isSome _ _ _ _ hkeysome]
                  exact hsome t
              · rw [if_neg hsing]
                refine ⟨inv2.1, ?_, ?_, ?_⟩
                · show s2.resolutionStack.erase (tokenOf r) = s.resolutionStack
                  rw [hstack2, herase]
                · intro t ht
                  exact hpres t ht
                · exact hsome
          · simp only [hc]
            exact StInv_emit s _
    · -- instantiate (fuel+1)
      intro p ov s
      cases p with
      | factory f => exact StInv_bumpId s
      | ctor c =>
        simp only [instantiate]
        rcases hb : buildDeps fuel c ov
            (List.range (Nat.max c.paramTypes.length c.paramNames.length)) s with ⟨rb, s1⟩
        have invb : StInv s s1 := by
          have h := ihB c ov (List.range (Nat.max c.paramTypes.length c.paramNames.length)) s
          rw [hb] at h
          exact h
        cases rb with
        | error e =>
          simp only [hb]
          exact invb
        | ok deps =>
          simp only [hb]
          have inv2 : StInv s { s1 with nextId := s1.nextId + 1 } :=
            StInv_trans invb (StInv_bumpId s1)
          rcases ha : applyCron c { s1 with nextId := s1.nextId + 1 } with ⟨ra, s3⟩
          have inva : StInv s s3 := by
            have h := applyCron_inv c { s1 with nextId := s1.nextId + 1 }
            rw [ha] at h
            exact StInv_trans inv2 h
          cases ra with
          | error e =>
            simp only [ha]
            exact inva
          | ok u =>
            simp only [ha]
            exact StInv_trans inva (ihP (mergeProps c.injectMeta c.protoInjectMeta) s3)
    · -- buildDeps (fuel+1)
      intro c ov idx s
      cases idx with
      | nil => exact StInv_refl s
      | cons i rest =>
        simp only [buildDeps]
        rcases ho : lookupNat ov i with _ | v
        · simp only [ho]
          rcases ht : (match lookupStr c.injectMeta ("param_" ++ toString i) with
            | some ref => if refTruthy ref then some ref else none
            | none => none : Option Ref) with _ | ref
          · simp only [ht]
            rcases hpt : c.paramTypes.getD i none with _ | pc
            · simp only [hpt]
              rcases hb : buildDeps fuel c ov rest s with ⟨rb, s2⟩
              have hinvb := ihB c ov rest s
              rw [hb] at hinvb
              cases rb <;> simp only [hb] <;> exact hinvb
            · simp only [hpt]
              by_cases h1 : (svcGet s.services (Token.cls pc.id pc.name)).isSome = true
              · rw [if_pos h1]
                rcases hr : resolve fuel (Ref.cls pc) s with ⟨rv, s1⟩
                have hinvr := ihR (Ref.cls pc) s
                rw [hr] at hinvr
                cases rv with
                | error e => simp only [hr]; exact hinvr
                | ok v =>
                  simp only [hr]
                  rcases hb : buildDeps fuel c ov rest s1 with ⟨rb, s2⟩
                  have hinvb := ihB c ov rest s1
                  rw [hb] at hinvb
                  cases rb <;> simp only [hb] <;> exact StInv_trans hinvr hinvb
              · rw [if_neg h1]
                by_cases h2 : (svcGet s.services (Token.str pc.name)).isSome = true
                · rw [if_pos h2]
                  rcases hr : resolve fuel (Ref.str pc.name) s with ⟨rv, s1⟩
                  have hinvr := ihR (Ref.str pc.name) s
                  rw [hr] at hinvr
                  cases rv with
                  | error e => simp only [hr]; exact hinvr
                  | ok v =>
                    simp only [hr]
                    rcases hb : buildDeps fuel c ov rest s1 with ⟨rb, s2⟩
                    have hinvb := ihB c ov rest s1
                    rw [hb] at hinvb
                    cases rb <;> simp only [hb] <;> exact StInv_trans hinvr hinvb
                · rw [if_neg h2]
                  exact StInv_refl s
          · simp only [ht]
            rcases hr : resolve fuel ref s with ⟨rv, s1⟩
            have hinvr := ihR ref s
            rw [hr] at hinvr
            cases rv with
            | error e => simp only [hr]; exact hinvr
            | ok v =>
              simp only [hr]
              rcases hb : buildDeps fuel c ov rest s1 with ⟨rb, s2⟩
              have hinvb := ihB c ov rest s1
              rw [hb] at hinvb
              cases rb <;> simp only [hb] <;> exact StInv_trans hinvr hinvb
        · simp only [ho]
          rcases hb : buildDeps fuel c ov rest s with ⟨rb, s2⟩
          have hinvb := ihB c ov rest s
          rw [hb] at hinvb
          cases rb <;> simp only [hb] <;> exact hinvb
    · -- propsLoop (fuel+1)
      intro props s
      cases props with
      | nil => exact StInv_refl s
      | cons kv rest =>
        obtain ⟨p, ref⟩ := kv
        simp only [propsLoop]
        by_cases hcond : (!p.startsWith "param_" && refTruthy ref) = true
        · rw [if_pos hcond]
          rcases hr : resolve fuel ref s with ⟨rv, s1⟩
          have invr : StInv s s1 := by
            have h := ihR ref s
            rw [hr] at h
            exact h
          cases rv with
          | error e =>
            simp only [hr]
            exact StInv_trans invr (ihP rest s1)
          | ok v =>
            simp only [hr]
            exact StInv_trans invr (ihP rest s1)
        · rw [if_neg hcond]
          exact ihP rest s

/-- A definition that is not a singleton never serves from cache. -/
theorem cachedVal_not_singleton (d : ServiceDefinition) (h : d.singleton = false) :
    cachedVal d = none := by
  unfold cachedVal
  cases hi : d.instance? with
  | none => rfl
  | some w => simp [h]

/-- A successful `resolve` of a class-producer definition that missed the
cache returns a freshly allocated object: its allocation number is at least
the entry counter and strictly below the exit counter. -/
theorem resolve_ok_shape (fuel : Nat) (r : Ref) (s : ContainerState)
    (d : ServiceDefinition) (c : ClassSpec) (v : Value) (s' : ContainerState)
    (hres : resolve fuel r s = (Except.ok v, s'))
    (hd : svcGet s.services (tokenOf r) = some d)
    (hcache : cachedVal d = none)
    (hty : d.type = Producer.ctor c) :
    ∃ k deps, v = Value.obj k deps ∧ s.nextId ≤ k ∧ k < s'.nextId := by
  cases fuel with
  | zero => simp [resolve] at hres
  | succ g =>
    simp only [resolve] at hres
    by_cases hmem : tokenOf r ∈ s.resolutionStack
    · rw [if_pos hmem] at hres
      simp at hres
    · rw [if_neg hmem] at hres
      simp only [hd, hcache] at hres
      rw [hty] at hres
      cases g with
      | zero => simp [instantiate] at hres
      | succ g2 =>
        simp only [instantiate] at hres
        rcases hb : buildDeps g2 c []
            (List.range (Nat.max c.paramTypes.length c.paramNames.length))
            { s with resolutionStack := s.resolutionStack ++ [tokenOf r] } with ⟨rb, sB⟩
        simp only [hb] at hres
        cases rb with
        | error e => simp at hres
        | ok deps =>
          have hBinv := ((pipelineInv g2).2.2.1) c []
            (List.range (Nat.max c.paramTypes.length c.paramNames.length))
            { s with resolutionStack := s.resolutionStack ++ [tokenOf r] }
          rw [hb] at hBinv
          rcases ha : applyCron c { sB with nextId := sB.nextId + 1 } with ⟨ra, sA⟩
          simp only [ha] at hres
          cases ra with
          | error e => simp at hres
          | ok u =>
            have hAinv := applyCron_inv c { sB with nextId := sB.nextId + 1 }
            rw [ha] at hAinv
            have hPinv := ((pipelineInv g2).2.2.2)
              (mergeProps c.injectMeta c.protoInjectMeta) sA
            simp only [Prod.mk.injEq, Except.ok.injEq] at hres
            obtain ⟨hv, hs'⟩ := hres
            refine ⟨sB.nextId, deps, hv.symm, ?_, ?_⟩
            · exact hBinv.1
            · have h1 : sB.nextId + 1 ≤ sA.nextId := hAinv.1
              have h2 : sA.nextId ≤
                  (propsLoop g2 (mergeProps c.injectMeta c.protoInjectMeta) sA).nextId :=
                hPinv.1
              have h3 : s'.nextId =
                  (propsLoop g2 (mergeProps c.injectMeta c.protoInjectMeta) sA).nextId := by
                rw [← hs']
                by_cases hsing : d.singleton = true
                · rw [if_pos hsing]
                  rfl
                · rw [if_neg hsing]
                  rfl
              omega

/-- Unpacking a cache hit: the definition is a singleton holding a truthy
instance. -/
theorem cachedVal_eq_some (d : ServiceDefinition) (w : Value)
    (h : cachedVal d = some w) :
    d.instance? = some w ∧ d.singleton = true ∧ isTruthy w = true := by
  unfold cachedVal at h
  cases hi : d.instance? with
  | none => simp [hi] at h
  | some u =>
    simp only [hi] at h
    by_cases hb : (d.singleton && isTruthy u) = true
    · rw [if_pos hb] at h
      obtain ⟨h1, h2⟩ := Bool.and_eq_true_iff.mp hb
      cases h
      exact ⟨rfl, h1, h2⟩
    · rw [if_neg hb] at h
      simp at h

/-- A `resolve` that finds a singleton definition with a truthy cached
instance serves the cache: it returns the cached value and emits
`resolved {fromCache: true}` as its only effect. -/
theorem resolve_hit (fuel : Nat) (r : Ref) (s : ContainerState)
    (d : ServiceDefinition) (v : Value)
    (hd : svcGet s.services (tokenOf r) = some d)
    (hmem : tokenOf r ∉ s.resolutionStack)
    (hsing : d.singleton = true) (hinst : d.instance? = some v)
    (htr : isTruthy v = true) :
    resolve (fuel + 1) r s =
      (Except.ok v, emitEv s (CEvent.resolved (tokenOf r) v true true)) := by
  have hc : cachedVal d = some v := by
    simp [cachedVal, hinst, hsing, htr]
  simp only [resolve]
  rw [if_neg hmem]
  simp only [hd, hc]

/-- After a successful resolve of a singleton class-producer definition, the
definition reachable under the token holds the returned instance, and the
instance is truthy. -/
theorem resolve_ok_singleton_cached (fuel : Nat) (r : Ref) (s : ContainerState)
    (d : ServiceDefinition) (c : ClassSpec) (v : Value) (s' : ContainerState)
    (hres : resolve fuel r s = (Except.ok v, s'))
    (hd : svcGet s.services (tokenOf r) = some d)
    (hty : d.type = Producer.ctor c)
    (hsing : d.singleton = true)
    (hmem : tokenOf r ∉ s.resolutionStack) :
    ∃ d', svcGet s'.services (tokenOf r) = some d' ∧ d'.singleton = true ∧
      d'.instance? = some v ∧ isTruthy v = true := by
  cases fuel with
  | zero => simp [resolve] at hres
  | succ g =>
    rcases hc : cachedVal d with _ | w
    · -- cache miss: the instance is a fresh object and gets stored
      have hshape := resolve_ok_shape (g + 1) r s d c v s' hres hd hc hty
      obtain ⟨k, deps, hv, _, _⟩ := hshape
      simp only [resolve] at hres
      rw [if_neg hmem] at hres
      simp only [hd, hc] at hres
      rcases hi : instantiate g d.type []
          { s with resolutionStack := s.resolutionStack ++ [tokenOf r] } with ⟨e | w, s2⟩
      · simp only [hi] at hres
        simp at hres
      · simp only [hi] at hres
        rw [if_pos hsing] at hres
        simp only [Prod.mk.injEq, Except.ok.injEq] at hres
        obtain ⟨hw, hs'⟩ := hres
        refine ⟨{ d with instance? := some v }, ?_, hsing, rfl, ?_⟩
        · rw [← hs', ← hw]
          show svcGet (svcSet s2.services (tokenOf r) _) (tokenOf r) = _
          rw [svcGet_svcSet_self]
        · rw [hv]
          rfl
    · -- cache hit: the entry is unchanged and already holds the value
      have hunpack := cachedVal_eq_some d w hc
      simp only [resolve] at hres
      rw [if_neg hmem] at hres
      simp only [hd, hc] at hres
      simp only [Prod.mk.injEq, Except.ok.injEq] at hres
      obtain ⟨hw, hs'⟩ := hres
      refine ⟨d, ?_, hsing, ?_, ?_⟩
      · rw [← hs']
        exact hd
      · rw [← hw]
        exact hunpack.1
      · rw [← hw]
        exact hunpack.2.2

/-- A successful resolve of a non-singleton definition leaves the definition
under the token untouched (no cache write; nested resolutions cannot touch a
token that sits on the resolution stack). -/
theorem resolve_transient_entry (fuel : Nat) (r : Ref) (s : ContainerState)
    (d : ServiceDefinition) (v : Value) (s' : ContainerState)
    (hres : resolve fuel r s = (Except.ok v, s'))
    (hd : svcGet s.services (tokenOf r) = some d)
    (hsing : d.singleton = false)
    (hmem : tokenOf r ∉ s.resolutionStack) :
    svcGet s'.services (tokenOf r) = some d := by
  cases fuel with
  | zero => simp [resolve] at hres
  | succ g =>
    have hc : cachedVal d = none := cachedVal_not_singleton d hsing
    simp only [resolve] at hres
    rw [if_neg hmem] at hres
    simp only [hd, hc] at hres
    rcases hi : instantiate g d.type []
        { s with resolutionStack := s.resolutionStack ++ [tokenOf r] } with ⟨e | w, s2⟩
    · simp only [hi] at hres
      simp at hres
    · simp only [hi] at hres
      have hIinv := (pipelineInv g).2.1 d.type []
        { s with resolutionStack := s.resolutionStack ++ [tokenOf r] }
      rw [hi] at hIinv
      have hentry : svcGet s2.services (tokenOf r) = some d := by
        have hm : tokenOf r ∈ s.resolutionStack ++ [tokenOf r] :=
          List.mem_append_right _ (List.mem_singleton_self _)
        have h2 := hIinv.2.2.1 (tokenOf r) hm
        rw [h2]
        exact hd
      have hnotsing : ¬(d.singleton = true) := by
        rw [hsing]
        exact Bool.false_ne_true
      rw [if_neg hnotsing] at hres
      simp only [Prod.mk.injEq, Except.ok.injEq] at hres
      obtain ⟨hw, hs'⟩ := hres
      rw [← hs']
      exact hentry

/-- C1: for every class token registered through `register`: with the default
singleton lifecycle, a second resolve after a successful one returns the
identical instance, served from the cache (its only effect is emitting
`resolved {fromCache: true}`); with `singleton: false`, two successful
resolves return two distinct instances. -/
theorem c1_singleton_identity_transient_distinct :
    (∀ (fuel fuel2 : Nat) (r : Ref) (s : ContainerState) (d : ServiceDefinition)
      (c : ClassSpec) (v : Value) (s1 : ContainerState),
      svcGet s.services (tokenOf r) = some d →
      d.type = Producer.ctor c →
      d.singleton = true →
      tokenOf r ∉ s.resolutionStack →
      resolve fuel r s = (Except.ok v, s1) →
      resolve (fuel2 + 1) r s1 =
        (Except.ok v, emitEv s1 (CEvent.resolved (tokenOf r) v true true))) ∧
    (∀ (fuel fuel2 : Nat) (r : Ref) (s : ContainerState) (d : ServiceDefinition)
      (c : ClassSpec) (v1 v2 : Value) (s1 s2 : ContainerState),
      svcGet s.services (tokenOf r) = some d →
      d.type = Producer.ctor c →
      d.singleton = false →
      tokenOf r ∉ s.resolutionStack →
      resolve fuel r s = (Except.ok v1, s1) →
      resolve fuel2 r s1 = (Except.ok v2, s2) →
      v1 ≠ v2) := by
  constructor
  · intro fuel fuel2 r s d c v s1 hd hty hsing hmem hres
    obtain ⟨d', hd', hsing', hinst', htr'⟩ :=
      resolve_ok_singleton_cached fuel r s d c v s1 hres hd hty hsing hmem
    have hstk : s1.resolutionStack = s.resolutionStack := by
      have h := (pipelineInv fuel).1 r s
      rw [hres] at h
      exact h.2.1
    have hmem1 : tokenOf r ∉ s1.resolutionStack := by
      rw [hstk]
      exact hmem
    exact resolve_hit fuel2 r s1 d' v hd' hmem1 hsing' hinst' htr'
  · intro fuel fuel2 r s d c v1 v2 s1 s2 hd hty hsing hmem hres1 hres2
    have hc : cachedVal d = none := cachedVal_not_singleton d hsing
    obtain ⟨k1, deps1, hv1, hk1lo, hk1hi⟩ :=
      resolve_ok_shape fuel r s d c v1 s1 hres1 hd hc hty
    have hd1 : svcGet s1.services (tokenOf r) = some d :=
      resolve_transient_entry fuel r s d v1 s1 hres1 hd hsing hmem
    have hmem1 : tokenOf r ∉ s1.resolutionStack := by
      have h := (pipelineInv fuel).1 r s
      rw [hres1] at h
      rw [h.2.1]
      exact hmem
    obtain ⟨k2, deps2, hv2, hk2lo, _⟩ :=
      resolve_ok_shape fuel2 r s1 d c v2 s2 hres2 hd1 hc hty
    rw [hv1, hv2]
    intro he
    injection he with hk _
    omega

/-- Witness for C1: a concrete singleton run (`register C; resolve C;
resolve C`) hits the cache with the identical object, and a concrete
transient run returns two distinct objects. -/
theorem c1_singleton_identity_transient_distinct_witness :
    (resolve 3 (Ref.cls witClassC)
        (resolve 5 (Ref.cls witClassC) (register witClassC (some true) emptySt)).2 =
      (Except.ok (Value.obj 0 []),
        emitEv (resolve 5 (Ref.cls witClassC) (register witClassC (some true) emptySt)).2
          (CEvent.resolved (tokenOf (Ref.cls witClassC)) (Value.obj 0 []) true true))) ∧
    (Value.obj 0 [] : Value) ≠ Value.obj 1 [] := by
  constructor
  · exact c1_singleton_identity_transient_distinct.1 5 2 (Ref.cls witClassC)
      (register witClassC (some true) emptySt)
      { type := Producer.ctor witClassC, singleton := true, instance? := none }
      witClassC (Value.obj 0 [])
      (resolve 5 (Ref.cls witClassC) (register witClassC (some true) emptySt)).2
      rfl rfl rfl (by decide) rfl
  · exact c1_singleton_identity_transient_distinct.2 5 5 (Ref.cls witClassCT)
      (register witClassCT (some false) emptySt)
      { type := Producer.ctor witClassCT, singleton := false, instance? := none }
      witClassCT (Value.obj 0 []) (Value.obj 1 [])
      (resolve 5 (Ref.cls witClassCT) (register witClassCT (some false) emptySt)).2
      (resolve 5 (Ref.cls witClassCT)
        (resolve 5 (Ref.cls witClassCT) (register witClassCT (some false) emptySt)).2).2
      rfl rfl rfl (by decide) rfl rfl

/-- Cache misses also when the stored instance is falsy. -/
theorem cachedVal_of_falsy (d : ServiceDefinition)
    (h : ∀ v, d.instance? = some v → isTruthy v = false) : cachedVal d = none := by
  unfold cachedVal
  cases hi : d.instance? with
  | none => rfl
  | some w =>
    have := h w hi
    simp [this]

/-- C5: resolving an unregistered token named `X` throws the
`Service 'X' is not registered in the DI container` error, whose message
contains `X` and the words `not registered`; and on the two-class cycle
`A → B → A` (each injecting the other by name) resolution fails with the
circular-dependency message carrying the full arrow-joined chain ending in
the repeated token, listing both tokens. -/
theorem c5_error_diagnostics :
    (∀ (fuel : Nat) (r : Ref) (s : ContainerState),
      tokenOf r ∉ s.resolutionStack →
      svcGet s.services (tokenOf r) = none →
      resolve (fuel + 1) r s = (Except.error (notRegisteredMsg (refName r)), s) ∧
      (refName r).data <:+: (notRegisteredMsg (refName r)).data ∧
      ("not registered").data <:+: (notRegisteredMsg (refName r)).data) ∧
    (resolve 20 (Ref.str "A")
        (register witClassB (some true) (register witClassA (some true) emptySt)) =
      (Except.error
        "Circular dependency detected while resolving A. Stack: A -> B -> A",
        register witClassB (some true) (register witClassA (some true) emptySt))) := by
  constructor
  · intro fuel r s hmem hd
    refine ⟨?_, ?_, ?_⟩
    · simp only [resolve]
      rw [if_neg hmem]
      simp only [hd]
    · show (refName r).data <:+: ("Service '" ++ refName r ++ "' is not registered in the DI container").data
      rw [String.data_append, String.data_append]
      exact List.infix_append _ _ _
    · show ("not registered").data <:+: ("Service '" ++ refName r ++ "' is not registered in the DI container").data
      rw [String.data_append, String.data_append]
      have h1 : ("not registered").data <:+: ("' is not registered in the DI container").data := by
        decide
      have h2 : ("' is not registered in the DI container").data <:+:
          ("Service '").data ++ ((refName r).data ++ ("' is not registered in the DI container").data) :=
        ((List.suffix_append _ _).trans (List.suffix_append _ _)).isInfix
      exact h1.trans h2
  · rfl

/-- Witness for C5: a concrete unregistered lookup produces the
`not registered` message containing the token name. -/
theorem c5_error_diagnostics_witness :
    resolve 1 (Ref.str "NotThere") emptySt =
      (Except.error (notRegisteredMsg "NotThere"), emptySt) ∧
    ("NotThere").data <:+: (notRegisteredMsg "NotThere").data ∧
    ("not registered").data <:+: (notRegisteredMsg "NotThere").data :=
  c5_error_diagnostics.1 0 (Ref.str "NotThere") emptySt (by decide) rfl

/-- C6: a telemetry-wrapped method that returns synchronously emits exactly
one `telemetry` payload with the result set and no error, and returns the
original value unchanged; one that throws synchronously emits exactly one
payload with the error set and no result, and re-raises the original
exception unchanged. -/
theorem c6_telemetry_one_event_error_transparent :
    ∀ (cn mn : String) (logging : Bool) (orig : List Value → MRes)
      (t0 t1 : Nat) (args : List Value),
      (∀ v, orig args = Except.ok v →
        telemetryWrap cn mn logging orig t0 t1 args =
          (Except.ok v,
            [{ className := cn, methodName := mn, args := args, startTime := t0,
               endTime := t1, result := v, error := Value.undef }])) ∧
      (∀ e, orig args = Except.error e →
        telemetryWrap cn mn logging orig t0 t1 args =
          (Except.error e,
            [{ className := cn, methodName := mn, args := args, startTime := t0,
               endTime := t1, result := Value.undef, error := e }])) := by
  intro cn mn logging orig t0 t1 args
  constructor
  · intro v h
    simp [telemetryWrap, h]
  · intro e h
    simp [telemetryWrap, h]

/-- Witness for C6: a concrete returning method and a concrete throwing
method. -/
theorem c6_telemetry_one_event_error_transparent_witness :
    telemetryWrap "Svc" "work" false (fun _ => Except.ok (Value.num 7)) 0 1 [] =
      (Except.ok (Value.num 7),
        [{ className := "Svc", methodName := "work", args := [], startTime := 0,
           endTime := 1, result := Value.num 7, error := Value.undef }]) ∧
    telemetryWrap "Svc" "boom" false (fun _ => Except.error (Value.str "oops")) 0 1 [] =
      (Except.error (Value.str "oops"),
        [{ className := "Svc", methodName := "boom", args := [], startTime := 0,
           endTime := 1, result := Value.undef, error := Value.str "oops" }]) :=
  ⟨(c6_telemetry_one_event_error_transparent "Svc" "work" false
      (fun _ => Except.ok (Value.num 7)) 0 1 []).1 (Value.num 7) rfl,
   (c6_telemetry_one_event_error_transparent "Svc" "boom" false
      (fun _ => Except.error (Value.str "oops")) 0 1 []).2 (Value.str "oops") rfl⟩

/-- C7: a publisher wrapped with phase `before` emits the named event once,
before the original method runs — the payload carries no result (it cannot
depend on the return value) — and the method's own return value is still
returned unchanged to the caller. -/
theorem c7_publisher_before_phase :
    ∀ (cn mn ev : String) (logging : Bool) (orig : List Value → MRes)
      (t0 t1 : Nat) (args : List Value) (v : Value),
      orig args = Except.ok v →
      publisherWrap cn mn ev PublishPhase.before logging orig t0 t1 args =
        (Except.ok v,
          [(ev, { className := cn, methodName := mn, args := args, startTime := t0,
                  endTime := t1, result := Value.undef, error := Value.undef })]) := by
  intro cn mn ev logging orig t0 t1 args v h
  simp [publisherWrap, h]

/-- Witness for C7 at a concrete method that returns `42`. -/
theorem c7_publisher_before_phase_witness :
    publisherWrap "Svc" "go" "evt" PublishPhase.before false
        (fun _ => Except.ok (Value.num 42)) 0 1 [] =
      (Except.ok (Value.num 42),
        [("evt", { className := "Svc", methodName := "go", args := [], startTime := 0,
                   endTime := 1, result := Value.undef, error := Value.undef })]) :=
  c7_publisher_before_phase "Svc" "go" "evt" false
    (fun _ => Except.ok (Value.num 42)) 0 1 [] (Value.num 42) rfl

/-- C9: `clear` invokes the stop handle of every tracked job and empties the
tracked list, discards every definition (afterwards `has` is false for every
token and `getServiceNames` is empty), and emits `cleared {count}` with the
pre-clear entry count. -/
theorem c9_clear_stops_jobs_discards_definitions :
    ∀ s : ContainerState,
      (clear s).services = [] ∧
      (clear s).cronJobs = [] ∧
      (clear s).stoppedJobs = s.stoppedJobs ++ s.cronJobs ∧
      (clear s).events = s.events ++ [CEvent.cleared s.services.length] ∧
      (∀ r : Ref, hasSvc (clear s) r = false) ∧
      getServiceNames (clear s) = [] := by
  intro s
  exact ⟨rfl, rfl, rfl, rfl, fun r => rfl, rfl⟩

/-- C10: a singleton factory whose produced values are all falsy is never
served from the cache: every resolve misses the truthiness test, runs the
factory again, stores the falsy result, and emits `resolved` with
`fromCache: false`. -/
theorem c10_falsy_singleton_never_cached :
    ∀ (fuel : Nat) (name : String) (f : Nat → Value) (s : ContainerState)
      (d : ServiceDefinition),
      svcGet s.services (Token.str name) = some d →
      d.type = Producer.factory f →
      d.singleton = true →
      (∀ v, d.instance? = some v → isTruthy v = false) →
      Token.str name ∉ s.resolutionStack →
      ∃ s', resolve (fuel + 1) (Ref.str name) s = (Except.ok (f s.nextId), s') ∧
        s'.events = s.events ++
          [CEvent.resolved (Token.str name) (f s.nextId) true false] ∧
        s'.services = svcSet s.services (Token.str name)
          { type := Producer.factory f, singleton := true,
            instance? := some (f s.nextId) } ∧
        s'.resolutionStack = s.resolutionStack ∧
        s'.nextId = s.nextId + 1 := by
  intro fuel name f s d hd hty hsing hfalsy hmem
  have hc : cachedVal d = none := cachedVal_of_falsy d hfalsy
  rcases fuel with _ | g
  all_goals
    refine ⟨{ s with
        services := svcSet s.services (Token.str name)
          { type := Producer.factory f, singleton := true,
            instance? := some (f s.nextId) },
        resolutionStack := (s.resolutionStack ++ [Token.str name]).erase (Token.str name),
        nextId := s.nextId + 1,
        events := s.events ++
          [CEvent.resolved (Token.str name) (f s.nextId) true false] }, ?_, rfl, rfl, ?_, rfl⟩
    · simp only [resolve, tokenOf, refName]
      rw [if_neg hmem]
      simp only [hd, hc]
      simp only [hty]
      simp only [instantiate]
      rw [if_pos hsing, hsing]
      rfl
    · show ((s.resolutionStack ++ [Token.str name]).erase (Token.str name)) = s.resolutionStack
      rw [List.erase_append_right _ hmem, List.erase_cons_head, List.append_nil]

/-- Witness for C10: a singleton factory returning `0` (falsy) resolves to
`0` with `fromCache: false`. -/
theorem c10_falsy_singleton_never_cached_witness :
    ∃ s', resolve 1 (Ref.str "z")
        (registerFactory "z" (fun _ => Value.num 0) (some true) emptySt) =
      (Except.ok (Value.num 0), s') ∧
      s'.events = (registerFactory "z" (fun _ => Value.num 0) (some true) emptySt).events ++
        [CEvent.resolved (Token.str "z") (Value.num 0) true false] := by
  obtain ⟨s', h1, h2, _⟩ :=
    c10_falsy_singleton_never_cached 0 "z" (fun _ => Value.num 0)
      (registerFactory "z" (fun _ => Value.num 0) (some true) emptySt)
      { type := Producer.factory (fun _ => Value.num 0), singleton := true,
        instance? := none }
      rfl rfl rfl (fun v h => Option.noConfusion h) (by decide)
  exact ⟨s', h1, h2⟩

/-- A definition with no cached instance cannot serve from cache. -/
theorem cachedVal_none_of_no_instance (d : ServiceDefinition)
    (h : d.instance? = none) : cachedVal d = none := by
  simp [cachedVal, h]

/-- Counterexample to C2 as stated: registering a dependency-free singleton
class `C` and resolving once by the class and once by the printable name
`"C"` succeeds both times but yields two distinct instances — `register`
stores two separate definition records, each with its own cache slot. -/
theorem c2_counterexample :
    (resolve 5 (Ref.cls witClassC) (register witClassC (some true) emptySt)).1 =
      Except.ok (Value.obj 0 []) ∧
    (resolve 5 (Ref.str "C")
        (resolve 5 (Ref.cls witClassC) (register witClassC (some true) emptySt)).2).1 =
      Except.ok (Value.obj 1 []) ∧
    (Value.obj 0 [] : Value) ≠ Value.obj 1 [] := by
  refine ⟨rfl, rfl, ?_⟩
  intro h
  injection h with h1 h2
  exact absurd h1 (by decide)

/-- C2 amended: `register` stores one fresh definition under the class
identity and another fresh definition under the printable name, so both
lookups succeed; but the two records cache independently, and resolving by
the class and then by the name produces two distinct instances. -/
theorem c2_alias_lookups_separate_caches :
    (∀ (c : ClassSpec) (opt : Option Bool) (s : ContainerState),
      svcGet (register c opt s).services (Token.cls c.id c.name) =
        some { type := Producer.ctor c, singleton := opt.getD true, instance? := none } ∧
      svcGet (register c opt s).services (Token.str c.name) =
        some { type := Producer.ctor c, singleton := opt.getD true, instance? := none }) ∧
    (∀ (fuel1 fuel2 : Nat) (c c2 : ClassSpec) (s : ContainerState)
      (d1 d2 : ServiceDefinition) (v1 v2 : Value) (s1 s2 : ContainerState),
      svcGet s.services (Token.cls c.id c.name) = some d1 →
      d1.type = Producer.ctor c → d1.instance? = none →
      resolve fuel1 (Ref.cls c) s = (Except.ok v1, s1) →
      svcGet s1.services (Token.str c.name) = some d2 →
      d2.type = Producer.ctor c2 → d2.instance? = none →
      resolve fuel2 (Ref.str c.name) s1 = (Except.ok v2, s2) →
      v1 ≠ v2) := by
  constructor
  · intro c opt s
    constructor
    · show svcGet (svcSet (svcSet s.services (Token.str c.name) _)
        (Token.cls c.id c.name) _) (Token.cls c.id c.name) = _
      rw [svcGet_svcSet_self]
    · show svcGet (svcSet (svcSet s.services (Token.str c.name) _)
        (Token.cls c.id c.name) _) (Token.str c.name) = _
      rw [svcGet_svcSet_ne _ _ _ _ (by simp), svcGet_svcSet_self]
  · intro fuel1 fuel2 c c2 s d1 d2 v1 v2 s1 s2 hd1 hty1 hi1 hres1 hd2 hty2 hi2 hres2
    have hc1 : cachedVal d1 = none := cachedVal_none_of_no_instance d1 hi1
    have hc2 : cachedVal d2 = none := cachedVal_none_of_no_instance d2 hi2
    obtain ⟨k1, deps1, hv1, _, hk1hi⟩ :=
      resolve_ok_shape fuel1 (Ref.cls c) s d1 c v1 s1 hres1 hd1 hc1 hty1
    obtain ⟨k2, deps2, hv2, hk2lo, _⟩ :=
      resolve_ok_shape fuel2 (Ref.str c.name) s1 d2 c2 v2 s2 hres2 hd2 hc2 hty2
    rw [hv1, hv2]
    intro he
    injection he with hk _
    omega

/-- Witness for C2 amended: the concrete register stores both records and the
two alias resolves yield distinct objects. -/
theorem c2_alias_lookups_separate_caches_witness :
    svcGet (register witClassC (some true) emptySt).services (Token.cls 0 "C") =
      some { type := Producer.ctor witClassC, singleton := true, instance? := none } ∧
    svcGet (register witClassC (some true) emptySt).services (Token.str "C") =
      some { type := Producer.ctor witClassC, singleton := true, instance? := none } ∧
    (Value.obj 0 [] : Value) ≠ Value.obj 1 [] := by
  refine ⟨(c2_alias_lookups_separate_caches.1 witClassC (some true) emptySt).1,
    (c2_alias_lookups_separate_caches.1 witClassC (some true) emptySt).2, ?_⟩
  exact c2_alias_lookups_separate_caches.2 5 5 witClassC witClassC
    (register witClassC (some true) emptySt)
    { type := Producer.ctor witClassC, singleton := true, instance? := none }
    { type := Producer.ctor witClassC, singleton := true, instance? := none }
    (Value.obj 0 []) (Value.obj 1 [])
    (resolve 5 (Ref.cls witClassC) (register witClassC (some true) emptySt)).2
    (resolve 5 (Ref.str "C")
      (resolve 5 (Ref.cls witClassC) (register witClassC (some true) emptySt)).2).2
    rfl rfl rfl rfl rfl rfl rfl rfl

/-- When every walked position is filled, the dependency list lines up with
the positions: it has one entry per position, and an overridden position
receives exactly its override value. -/
theorem buildDeps_positions (fuel : Nat) (c : ClassSpec) (ov : List (Nat × Value))
    (idx : List Nat) (s : ContainerState) (ds : List Value) (s' : ContainerState)
    (h : buildDeps fuel c ov idx s = (Except.ok ds, s'))
    (hfill : ∀ i ∈ idx, positionFilled c ov i = true) :
    ds.length = idx.length ∧
    (∀ j i w, idx.get? j = some i → lookupNat ov i = some w → ds.get? j = some w) := by
  induction idx generalizing fuel s ds s' with
  | nil =>
    cases fuel with
    | zero =>
      simp only [buildDeps, Prod.mk.injEq, Except.ok.injEq] at h
      obtain ⟨h1, h2⟩ := h
      subst h1
      refine ⟨rfl, ?_⟩
      intro j i w hj hw
      simp at hj
    | succ g =>
      simp only [buildDeps, Prod.mk.injEq, Except.ok.injEq] at h
      obtain ⟨h1, h2⟩ := h
      subst h1
      refine ⟨rfl, ?_⟩
      intro j i w hj hw
      simp at hj
  | cons i rest ih =>
    cases fuel with
    | zero => simp [buildDeps] at h
    | succ g =>
      have hfi : positionFilled c ov i = true := hfill i (List.mem_cons_self i rest)
      have hfrest : ∀ j ∈ rest, positionFilled c ov j = true :=
        fun j hj => hfill j (List.mem_cons_of_mem i hj)
      simp only [buildDeps] at h
      rcases ho : lookupNat ov i with _ | v
      · simp only [ho] at h
        rcases ht : (match lookupStr c.injectMeta ("param_" ++ toString i) with
          | some ref => if refTruthy ref then some ref else none
          | none => none : Option Ref) with _ | ref
        · simp only [ht] at h
          rcases hpt : c.paramTypes.getD i none with _ | pc
          · -- skipped position: contradicts hfill
            exfalso
            unfold positionFilled at hfi
            rw [ho, hpt] at hfi
            rcases hm : lookupStr c.injectMeta ("param_" ++ toString i) with _ | ref2
            · simp only [hm] at hfi
              simp at hfi
            · simp only [hm] at hfi ht
              by_cases htr : refTruthy ref2 = true
              · rw [if_pos htr] at ht
                simp at ht
              · simp only [Bool.not_eq_true] at htr
                rw [htr] at hfi
                simp at hfi
          · simp only [hpt] at h
            by_cases h1 : (svcGet s.services (Token.cls pc.id pc.name)).isSome = true
            · rw [if_pos h1] at h
              rcases hr : resolve g (Ref.cls pc) s with ⟨e | w, s1⟩
              · simp only [hr] at h
                simp at h
              · simp only [hr] at h
                rcases hb : buildDeps g c ov rest s1 with ⟨rb, s2⟩
                simp only [hb] at h
                cases rb with
                | error e => simp at h
                | ok ds1 =>
                  simp only [Prod.mk.injEq, Except.ok.injEq] at h
                  obtain ⟨hds, _⟩ := h
                  obtain ⟨hlen, hpos⟩ := ih g s1 ds1 s2 hb hfrest
                  subst hds
                  refine ⟨by simp [hlen], ?_⟩
                  intro j i2 w hj hw
                  cases j with
                  | zero =>
                    simp at hj
                    subst hj
                    rw [ho] at hw
                    cases hw
                  | succ j2 =>
                    simp only [List.get?] at hj ⊢
                    exact hpos j2 i2 w hj hw
            · rw [if_neg h1] at h
              by_cases h2 : (svcGet s.services (Token.str pc.name)).isSome = true
              · rw [if_pos h2] at h
                rcases hr : resolve g (Ref.str pc.name) s with ⟨e | w, s1⟩
                · simp only [hr] at h
                  simp at h
                · simp only [hr] at h
                  rcases hb : buildDeps g c ov rest s1 with ⟨rb, s2⟩
                  simp only [hb] at h
                  cases rb with
                  | error e => simp at h
                  | ok ds1 =>
                    simp only [Prod.mk.injEq, Except.ok.injEq] at h
                    obtain ⟨hds, _⟩ := h
                    obtain ⟨hlen, hpos⟩ := ih g s1 ds1 s2 hb hfrest
                    subst hds
                    refine ⟨by simp [hlen], ?_⟩
                    intro j i2 w hj hw
                    cases j with
                    | zero =>
                      simp at hj
                      subst hj
                      rw [ho] at hw
                      cases hw
                    | succ j2 =>
                      simp only [List.get?] at hj ⊢
                      exact hpos j2 i2 w hj hw
              · rw [if_neg h2] at h
                simp at h
        · simp only [ht] at h
          rcases hr : resolve g ref s with ⟨e | w, s1⟩
          · simp only [hr] at h
            simp at h
          · simp only [hr] at h
            rcases hb : buildDeps g c ov rest s1 with ⟨rb, s2⟩
            simp only [hb] at h
            cases rb with
            | error e => simp at h
            | ok ds1 =>
              simp only [Prod.mk.injEq, Except.ok.injEq] at h
              obtain ⟨hds, _⟩ := h
              obtain ⟨hlen, hpos⟩ := ih g s1 ds1 s2 hb hfrest
              subst hds
              refine ⟨by simp [hlen], ?_⟩
              intro j i2 w hj hw
              cases j with
              | zero =>
                simp at hj
                subst hj
                rw [ho] at hw
                cases hw
              | succ j2 =>
                simp only [List.get?] at hj ⊢
                exact hpos j2 i2 w hj hw
      · simp only [ho] at h
        rcases hb : buildDeps g c ov rest s with ⟨rb, s2⟩
        simp only [hb] at h
        cases rb with
        | error e => simp at h
        | ok ds1 =>
          simp only [Prod.mk.injEq, Except.ok.injEq] at h
          obtain ⟨hds, _⟩ := h
          obtain ⟨hlen, hpos⟩ := ih g s ds1 s2 hb hfrest
          subst hds
          refine ⟨by simp [hlen], ?_⟩
          intro j i2 w hj hw
          cases j with
          | zero =>
            simp at hj
            subst hj
            rw [ho] at hw
            cases hw
            rfl
          | succ j2 =>
            simp only [List.get?] at hj ⊢
            exact hpos j2 i2 w hj hw

/-- Counterexample to C3 as stated: `class T { constructor(a, b) }` with no
metadata for position 0 and `construct(T, {1: "lit"})`.  The loop pushes
nothing for position 0, so the literal supplied for position 1 becomes
constructor argument 0: the produced object's argument list is
`["lit"]`, which has no entry at position 1. -/
theorem c3_counterexample :
    (construct 5 witClassT [(1, Value.str "lit")] emptySt).1 =
      Except.ok (Value.obj 0 [Value.str "lit"]) ∧
    [Value.str "lit"].get? 1 = none :=
  ⟨rfl, rfl⟩

/-- C3 amended: `construct` never caches and leaves the registry keys
unchanged (`has` stays false for a never-registered `T`), and each override
literal is passed at its own position provided every walked position
receives a value (an override, a truthy injection target, or a known
parameter type) — an unfilled earlier position shifts later arguments left,
because the loop pushes nothing for it. -/
theorem c3_construct_overrides_no_cache :
    ∀ (fuel : Nat) (c : ClassSpec) (ov : List (Nat × Value)) (s : ContainerState)
      (v : Value) (s' : ContainerState),
      construct fuel c ov s = (Except.ok v, s') →
      (∀ r : Ref, hasSvc s' r = hasSvc s r) ∧
      ∃ k args, v = Value.obj k args ∧
        ((∀ i ∈ List.range (Nat.max c.paramTypes.length c.paramNames.length),
            positionFilled c ov i = true) →
          args.length = Nat.max c.paramTypes.length c.paramNames.length ∧
          ∀ i w, lookupNat ov i = some w →
            i < Nat.max c.paramTypes.length c.paramNames.length →
            args.get? i = some w) := by
  intro fuel c ov s v s' h
  cases fuel with
  | zero =>
    simp only [construct] at h
    by_cases hmem : Token.cls c.id c.name ∈ s.resolutionStack
    · rw [if_pos hmem] at h
      simp at h
    · rw [if_neg hmem] at h
      simp only [instantiate] at h
      simp at h
  | succ g =>
    simp only [construct] at h
    by_cases hmem : Token.cls c.id c.name ∈ s.resolutionStack
    · rw [if_pos hmem] at h
      simp at h
    · rw [if_neg hmem] at h
      simp only [instantiate] at h
      rcases hb : buildDeps g c ov
          (List.range (Nat.max c.paramTypes.length c.paramNames.length))
          { s with resolutionStack := s.resolutionStack ++ [Token.cls c.id c.name] }
          with ⟨e | deps, sB⟩
      · simp only [hb] at h
        simp at h
      · simp only [hb] at h
        rcases ha : applyCron c { sB with nextId := sB.nextId + 1 } with ⟨ea | u, sA⟩
        · simp only [ha] at h
          simp at h
        · simp only [ha] at h
          simp only [Prod.mk.injEq, Except.ok.injEq] at h
          obtain ⟨hv, hs'⟩ := h
          have hBinv := (pipelineInv g).2.2.1 c ov
            (List.range (Nat.max c.paramTypes.length c.paramNames.length))
            { s with resolutionStack := s.resolutionStack ++ [Token.cls c.id c.name] }
          rw [hb] at hBinv
          have hAinv := applyCron_inv c { sB with nextId := sB.nextId + 1 }
          rw [ha] at hAinv
          have hPinv := (pipelineInv g).2.2.2
            (mergeProps c.injectMeta c.protoInjectMeta) sA
          constructor
          · intro r
            show (svcGet s'.services (tokenOf r)).isSome =
              (svcGet s.services (tokenOf r)).isSome
            rw [← hs']
            have e1 := hPinv.2.2.2 (tokenOf r)
            have e2 := hAinv.2.2.2 (tokenOf r)
            have e3 := hBinv.2.2.2 (tokenOf r)
            exact e1.trans (e2.trans e3)
          · exact ⟨sB.nextId, deps, hv.symm, fun hfillAll => by
              obtain ⟨hlen, hpos⟩ := buildDeps_positions g c ov
                (List.range (Nat.max c.paramTypes.length c.paramNames.length))
                { s with resolutionStack := s.resolutionStack ++ [Token.cls c.id c.name] }
                deps sB hb hfillAll
              refine ⟨by rw [hlen, List.length_range], ?_⟩
              intro i w hw hi
              exact hpos i i w (by rw [List.get?_range hi]) hw⟩

/-- Witness for C3 amended: `construct(G, {1: "hello"})` with position 0
injected resolves the dependency into position 0, puts the literal at
position 1, and `has(G)` stays false. -/
theorem c3_construct_overrides_no_cache_witness :
    hasSvc (construct 10 witClassG [(1, Value.str "hello")]
        (register witClassC (some true) emptySt)).2 (Ref.cls witClassG) = false ∧
    (construct 10 witClassG [(1, Value.str "hello")]
        (register witClassC (some true) emptySt)).1 =
      Except.ok (Value.obj 1 [Value.obj 0 [], Value.str "hello"]) ∧
    [Value.obj 0 [], Value.str "hello"].get? 1 = some (Value.str "hello") := by
  obtain ⟨hhas, k, args, hv, hfill⟩ :=
    c3_construct_overrides_no_cache 10 witClassG [(1, Value.str "hello")]
      (register witClassC (some true) emptySt)
      (Value.obj 1 [Value.obj 0 [], Value.str "hello"])
      (construct 10 witClassG [(1, Value.str "hello")]
        (register witClassC (some true) emptySt)).2 rfl
  have h2 := (hfill (by decide)).2 1 (Value.str "hello") rfl (by decide)
  injection hv with hk hargs
  refine ⟨?_, rfl, ?_⟩
  · rw [hhas (Ref.cls witClassG)]
    rfl
  · rw [hargs]
    exact h2

/-- Counterexample to C4 as stated: `construct` on a never-registered,
dependency-free class succeeds (and does not fail with the
`ServiceNotFound` error), because `construct` performs no definition
lookup for its target. -/
theorem c4_counterexample :
    hasSvc emptySt (Ref.cls witClassU) = false ∧
    (construct 5 witClassU [] emptySt).1 = Except.ok (Value.obj 0 []) :=
  ⟨rfl, rfl⟩

/-- C4 amended: `construct` never looks the target token up in the registry;
for a class with no parameter types, no constructor injection metadata and
no cron schedules it always succeeds — registered or not — so
`ServiceNotFound` can only arise from resolving dependency tokens. -/
theorem c4_construct_skips_registry_lookup :
    ∀ (fuel : Nat) (c : ClassSpec) (ov : List (Nat × Value)) (s : ContainerState),
      c.paramTypes = [] → c.injectMeta = [] → c.cronMethods = [] →
      Token.cls c.id c.name ∉ s.resolutionStack →
      c.paramNames.length ≤ fuel →
      ∃ v s', construct (fuel + 1) c ov s = (Except.ok v, s') := by
  have hbd : ∀ (idx : List Nat) (fuel : Nat) (c : ClassSpec) (ov : List (Nat × Value))
      (s : ContainerState), c.paramTypes = [] → c.injectMeta = [] →
      idx.length ≤ fuel →
      ∃ ds, buildDeps fuel c ov idx s = (Except.ok ds, s) := by
    intro idx
    induction idx with
    | nil =>
      intro fuel c ov s _ _ _
      cases fuel with
      | zero => exact ⟨[], rfl⟩
      | succ g => exact ⟨[], rfl⟩
    | cons i rest ih =>
      intro fuel c ov s hpt him hlen
      cases fuel with
      | zero => exact absurd hlen (by simp)
      | succ g =>
        have hlen2 : rest.length ≤ g := by
          have h3 := hlen
          simp only [List.length_cons] at h3
          omega
        obtain ⟨ds1, hds1⟩ := ih g c ov s hpt him hlen2
        simp only [buildDeps]
        rcases ho : lookupNat ov i with _ | v
        · simp only [ho]
          rw [him]
          simp only [lookupStr]
          rw [hpt]
          simp only [List.getD_nil]
          rw [hds1]
          exact ⟨ds1, rfl⟩
        · simp only [ho]
          rw [hds1]
          exact ⟨v :: ds1, rfl⟩
  intro fuel c ov s hpt him hcron hmem hlen
  simp only [construct]
  rw [if_neg hmem]
  have hlen2 : (List.range (Nat.max c.paramTypes.length c.paramNames.length)).length ≤ fuel := by
    rw [List.length_range, hpt]
    simpa using hlen
  obtain ⟨ds, hds⟩ := hbd
    (List.range (Nat.max c.paramTypes.length c.paramNames.length)) fuel c ov
    { s with resolutionStack := s.resolutionStack ++ [Token.cls c.id c.name] }
    hpt him hlen2
  cases fuel with
  | zero =>
    simp only [instantiate]
    rw [hds]
    simp only [applyCron, hcron, applyCronList]
    exact ⟨_, _, rfl⟩
  | succ g =>
    simp only [instantiate]
    rw [hds]
    simp only [applyCron, hcron, applyCronList]
    exact ⟨_, _, rfl⟩

/-- Witness for C4 amended: the unregistered class `U` constructs. -/
theorem c4_construct_skips_registry_lookup_witness :
    ∃ v s', construct 6 witClassU [] emptySt = (Except.ok v, s') :=
  c4_construct_skips_registry_lookup 5 witClassU [] emptySt rfl rfl rfl
    (by decide) (by decide)

theorem daysInMonth_pos (y m : Nat) : 0 < daysInMonth y m := by
  unfold daysInMonth
  split
  · split <;> omega
  · split <;> omega

theorem daysInMonth_feb_le (y : Nat) : daysInMonth y 2 ≤ 29 := by
  unfold daysInMonth
  split
  · split <;> omega
  · next h => exact absurd rfl h

/-- The day of month computed by the month walk never exceeds the length of
the month it lands in. -/
theorem monthLoopF_day_le :
    ∀ (fuel y m rem : Nat), rem ≤ fuel →
      (monthLoopF fuel y m rem).2 ≤ daysInMonth y (monthLoopF fuel y m rem).1 := by
  intro fuel
  induction fuel with
  | zero =>
    intro y m rem h
    have h0 : rem = 0 := by omega
    subst h0
    simpa [monthLoopF] using daysInMonth_pos y m
  | succ g ih =>
    intro y m rem h
    simp only [monthLoopF]
    by_cases hlt : rem < daysInMonth y m
    · rw [if_pos hlt]
      exact hlt
    · rw [if_neg hlt]
      have hpos := daysInMonth_pos y m
      exact ih y (m + 1) (rem - daysInMonth y m) (by omega)

theorem civil_day_le (d : Nat) :
    (civilFromDay d).2.2 ≤ daysInMonth (civilFromDay d).1 (civilFromDay d).2.1 := by
  unfold civilFromDay
  exact monthLoopF_day_le (yearLoopF d 1970 d).2 (yearLoopF d 1970 d).1 1
    (yearLoopF d 1970 d).2 (Nat.le_refl _)

/-- A field set demanding day-of-month 31 in February can never match: no
candidate minute has civil date 31 in month 2. -/
theorem cronMatches_day31_feb (F : CronFields) (hdom : F.dayOfMonth = [31])
    (hmon : F.month = [2]) (m : Nat) : cronMatches F m = false := by
  apply Bool.eq_false_iff.mpr
  intro htr
  unfold cronMatches at htr
  rw [hdom, hmon] at htr
  simp only [Bool.and_eq_true] at htr
  have hdate := htr.1.1.2
  have hmo := htr.1.2
  have hd31 : dateOfMinute m = 31 := by
    simp at hdate
    omega
  have hm2 : monthOfMinute m = 2 := by
    simp at hmo
    omega
  unfold dateOfMinute at hd31
  unfold monthOfMinute at hm2
  have hb := civil_day_le (m / 1440)
  rw [hm2] at hb
  have h29 := daysInMonth_feb_le (civilFromDay (m / 1440)).1
  omega

/-- The scan loop finds the first matching minute: a successful result is a
match, lies within the scanned window, and no earlier candidate in the
window matches. -/
theorem cronScan_first (f : CronFields) :
    ∀ (k m mr : Nat), cronScan f k m = Except.ok mr →
      m ≤ mr ∧ mr < m + k ∧ cronMatches f mr = true ∧
      ∀ j, m ≤ j → j < mr → cronMatches f j = false := by
  intro k
  induction k with
  | zero =>
    intro m mr h
    simp [cronScan] at h
  | succ g ih =>
    intro m mr h
    simp only [cronScan] at h
    by_cases hm : cronMatches f m = true
    · rw [if_pos hm] at h
      injection h with hmr
      subst hmr
      exact ⟨Nat.le_refl _, by omega, hm, fun j h1 h2 => by omega⟩
    · rw [if_neg hm] at h
      obtain ⟨h1, h2, h3, h4⟩ := ih (m + 1) mr h
      refine ⟨by omega, by omega, h3, ?_⟩
      intro j hj1 hj2
      by_cases hje : j = m
      · subst hje
        exact Bool.not_eq_true _ ▸ (Bool.eq_false_iff.mpr hm)
      · exact h4 j (by omega) hj2

/-- When no candidate in the window matches, the scan exhausts its bound and
throws. -/
theorem cronScan_exhausts (f : CronFields) :
    ∀ (k m : Nat), (∀ j, m ≤ j → j < m + k → cronMatches f j = false) →
      cronScan f k m =
        Except.error "No matching cron time found for expression within 2 years" := by
  intro k
  induction k with
  | zero => intro m h; rfl
  | succ g ih =>
    intro m h
    simp only [cronScan]
    have hm : cronMatches f m = false := h m (Nat.le_refl _) (by omega)
    rw [if_neg (by rw [hm]; exact Bool.false_ne_true)]
    exact ih (m + 1) (fun j h1 h2 => h j (by omega) (by omega))

/-- C8: the next-firing-time computation scans minute-by-minute from the
input instant truncated up to the next whole minute, returns the first
candidate on which all five fields match, is bounded by `cronSearchBound`
(≈ 2 years of minutes) and throws when nothing in the bound matches.  In
particular `"0 * * * *"` at 01:00:05 (3,605,000 ms) fires at 02:00
(7,200,000 ms), `"*/15 * * * *"` at the same instant fires at 01:15
(4,500,000 ms), and the impossible day/month combination `"0 0 31 2 *"`
(February 31st) exhausts the bound and fails for every start instant. -/
theorem c8_next_cron_time :
    ((parseCronExpression "0 * * * *").bind (fun f => getNextCronTime f 3605000) =
      Except.ok 7200000) ∧
    ((parseCronExpression "*/15 * * * *").bind (fun f => getNextCronTime f 3605000) =
      Except.ok 4500000) ∧
    (∀ t : Nat, (parseCronExpression "0 0 31 2 *").bind (fun f => getNextCronTime f t) =
      Except.error "No matching cron time found for expression within 2 years") ∧
    (∀ (f : CronFields) (t m : Nat), getNextCronTime f t = Except.ok m →
      ∃ mm, m = mm * 60000 ∧ t / 60000 + 1 ≤ mm ∧ mm < t / 60000 + 1 + cronSearchBound ∧
        cronMatches f mm = true ∧
        ∀ j, t / 60000 + 1 ≤ j → j < mm → cronMatches f j = false) ∧
    (∀ (f : CronFields) (t : Nat),
      (∀ j, t / 60000 + 1 ≤ j → j < t / 60000 + 1 + cronSearchBound →
        cronMatches f j = false) →
      getNextCronTime f t =
        Except.error "No matching cron time found for expression within 2 years") := by
  refine ⟨rfl, rfl, ?_, ?_, ?_⟩
  · intro t
    have hp : parseCronExpression "0 0 31 2 *" =
        Except.ok { minute := [0], hour := [0], dayOfMonth := [31], month := [2],
                    dayOfWeek := [0, 1, 2, 3, 4, 5, 6] } := rfl
    rw [hp]
    show getNextCronTime _ t = _
    unfold getNextCronTime
    rw [cronScan_exhausts _ cronSearchBound (t / 60000 + 1)
      (fun j _ _ => cronMatches_day31_feb _ rfl rfl j)]
    rfl
  · intro f t m h
    unfold getNextCronTime at h
    rcases hscan : cronScan f cronSearchBound (t / 60000 + 1) with e | mm
    · rw [hscan] at h
      simp [Except.map] at h
    · rw [hscan] at h
      simp only [Except.map, Except.ok.injEq] at h
      obtain ⟨h1, h2, h3, h4⟩ := cronScan_first f cronSearchBound (t / 60000 + 1) mm hscan
      exact ⟨mm, h.symm, h1, h2, h3, h4⟩
  · intro f t h
    unfold getNextCronTime
    rw [cronScan_exhausts f cronSearchBound (t / 60000 + 1) (fun j h1 h2 => h j h1 h2)]
    rfl

/-- Witness for C8: the first-match characterization applied to the concrete
hourly schedule at 01:00:05, whose next firing is minute 120 (02:00). -/
theorem c8_next_cron_time_witness :
    ∃ mm, (7200000 : Nat) = mm * 60000 ∧ 3605000 / 60000 + 1 ≤ mm ∧
      mm < 3605000 / 60000 + 1 + cronSearchBound ∧
      cronMatches (CronFields.mk [0] (natRangeIncl 0 23) (natRangeIncl 1 31)
        (natRangeIncl 1 12) (natRangeIncl 0 6)) mm = true ∧
      ∀ j, 3605000 / 60000 + 1 ≤ j → j < mm →
        cronMatches (CronFields.mk [0] (natRangeIncl 0 23) (natRangeIncl 1 31)
          (natRangeIncl 1 12) (natRangeIncl 0 6)) j = false :=
  c8_next_cron_time.2.2.2.1
    (CronFields.mk [0] (natRangeIncl 0 23) (natRangeIncl 1 31)
      (natRangeIncl 1 12) (natRangeIncl 0 6))
    3605000 7200000 rfl
